import Mathlib

/-!
Verification of the MailApp bulk-mail backend (server.js) against its
specification.  JavaScript strings are modelled as `List Char`; JS `null` /
`undefined` values are modelled with `Option`; the nodemailer transport and
the SMTP network are modelled as oracles giving the outcome of each attempt.
-/

/-- JavaScript strings are modelled as lists of characters. -/
abbrev Str := List Char

/-- Coercion from Lean string literals to the `Str` model. -/
def str (s : String) : Str := s.toList

/-- Models JS `String.prototype.toLowerCase` (ASCII suffices here). -/
def lowerStr (s : Str) : Str := s.map Char.toLower

/-- Models JS `String.prototype.toUpperCase` (ASCII suffices here). -/
def upperStr (s : Str) : Str := s.map Char.toUpper

/-- Models JS `haystack.includes(pat)`: substring containment test. -/
def strIncludes (pat : Str) : Str → Bool
  | [] => pat.isEmpty
  | c :: t => pat.isPrefixOf (c :: t) || strIncludes pat t

/-- Model of a JS error value as thrown by nodemailer: `responseCode` is the
numeric SMTP response code (absent for transport-level errors), `code` the
machine code string (empty when absent, after JS coercion with
`String(err.code || "")`), `message` and `response` the error message and raw
SMTP response text, and `asString` the value of `String(err)`. -/
structure ErrObj where
  responseCode : Option Int
  code : Str
  message : Str
  response : Str
  asString : Str
deriving DecidableEq

/-- Models `err.message || String(err)` from server.js. -/
def errText (e : ErrObj) : Str :=
  if e.message = [] then e.asString else e.message

/-- Embeds `isTemporaryAuthError` from server.js: 454 temporary auth failure
detection over the response code, lowercased message and response text. -/
def isTemporaryAuthError : Option ErrObj → Bool
  | none => false
  | some err =>
    if err.responseCode = some 454 then true
    else
      let m := lowerStr err.message
      let r := lowerStr err.response
      strIncludes (str "454 4.7.0") m || strIncludes (str "454 4.7.0") r ||
        strIncludes (str "temporary authentication failure") m ||
        strIncludes (str "temporary authentication failure") r

/-- The fixed list of machine codes `isNetworkError` treats as network
failures in server.js. -/
def networkErrorCodes : List Str :=
  [str "ECONNECTION", str "ECONNRESET", str "ETIMEDOUT", str "ESOCKET",
   str "EAI_AGAIN", str "ENOTFOUND"]

/-- Embeds `isNetworkError` from server.js: a fixed code list checked against
the uppercased machine code, then phrase search over lowercased
message-plus-response text. -/
def isNetworkError : Option ErrObj → Bool
  | none => false
  | some err =>
    if networkErrorCodes.contains (upperStr err.code) then true
    else
      let text := lowerStr err.message ++ str " " ++ lowerStr err.response
      strIncludes (str "network error") text ||
        strIncludes (str "connection lost") text ||
        strIncludes (str "connection closed") text ||
        strIncludes (str "connection reset") text ||
        strIncludes (str "socket hang up") text ||
        strIncludes (str "timed out") text ||
        strIncludes (str "timeout") text

/-- The three failure classes of the transient-failure classifier. -/
inductive FailClass where
  | TEMP_AUTH
  | NETWORK
  | OTHER
deriving DecidableEq

/-- Embeds the classification expression of server.js (line 218):
`reason = tempAuth ? "TEMP_AUTH" : netErr ? "NETWORK" : "OTHER"`. -/
def classify (e : ErrObj) : FailClass :=
  if isTemporaryAuthError (some e) then .TEMP_AUTH
  else if isNetworkError (some e) then .NETWORK
  else .OTHER

section InfixLemmas

theorem strIncludes_iff (pat s : Str) : strIncludes pat s = true ↔ pat <:+: s := by
  induction s with
  | nil =>
    simp only [strIncludes, List.isEmpty_iff, List.infix_nil]
  | cons c t ih =>
    simp only [strIncludes, Bool.or_eq_true, List.isPrefixOf_iff_prefix, ih]
    constructor
    · rintro (h | h)
      · exact h.isInfix
      · exact List.infix_cons h
    · intro h
      rcases List.infix_cons_iff.mp h with h | h
      · exact Or.inl h
      · exact Or.inr h

theorem strIncludes_map (f : Char → Char) (pat s : Str)
    (h : strIncludes pat s = true) :
    strIncludes (pat.map f) (s.map f) = true := by
  rw [strIncludes_iff] at h ⊢
  exact h.map f

end InfixLemmas

/-- C5: the failure classifier is total and deterministic over every error
value, checks TEMP_AUTH before NETWORK, classifies a (non-temp-auth) error
with code ECONNRESET as NETWORK, classifies any error whose message or
response contains "454 4.7.0" (a pattern invariant under letter case) as
TEMP_AUTH, and classifies every error matching neither classifier rule as
OTHER. -/
theorem C5_classifier_total_deterministic :
    (∀ e : ErrObj,
      classify e = .TEMP_AUTH ∨ classify e = .NETWORK ∨ classify e = .OTHER) ∧
    (∀ e : ErrObj, isTemporaryAuthError (some e) = true → classify e = .TEMP_AUTH) ∧
    (∀ e : ErrObj, e.code = str "ECONNRESET" →
      isTemporaryAuthError (some e) = false → classify e = .NETWORK) ∧
    (∀ e : ErrObj,
      strIncludes (str "454 4.7.0") e.message = true ∨
        strIncludes (str "454 4.7.0") e.response = true →
      classify e = .TEMP_AUTH) ∧
    (∀ e : ErrObj, isTemporaryAuthError (some e) = false →
      isNetworkError (some e) = false → classify e = .OTHER) ∧
    (∀ e : ErrObj, ∀ c₁ c₂ : FailClass,
      classify e = c₁ → classify e = c₂ → c₁ = c₂) := by
  refine ⟨?_, ?_, ?_, ?_, ?_, ?_⟩
  · intro e
    unfold classify
    split
    · exact Or.inl rfl
    · split
      · exact Or.inr (Or.inl rfl)
      · exact Or.inr (Or.inr rfl)
  · intro e h
    unfold classify
    simp [h]
  · intro e hcode hta
    unfold classify
    have hnet : isNetworkError (some e) = true := by
      simp only [isNetworkError]
      rw [hcode]
      have hc : networkErrorCodes.contains (upperStr (str "ECONNRESET")) = true := by
        decide
      rw [if_pos hc]
    simp [hta, hnet]
  · intro e h
    have hpat : (str "454 4.7.0").map Char.toLower = str "454 4.7.0" := by decide
    have hta : isTemporaryAuthError (some e) = true := by
      simp only [isTemporaryAuthError, lowerStr]
      rcases h with h | h
      · have h2 := strIncludes_map Char.toLower _ _ h
        rw [hpat] at h2
        simp [h2]
      · have h2 := strIncludes_map Char.toLower _ _ h
        rw [hpat] at h2
        simp [h2]
    unfold classify
    simp [hta]
  · intro e hta hnet
    unfold classify
    simp [hta, hnet]
  · intro e c₁ c₂ h₁ h₂
    rw [← h₁, h₂]

/-- Sample error with machine code ECONNRESET, as thrown by a reset TCP
connection. -/
def errEconnreset : ErrObj :=
  { responseCode := none, code := str "ECONNRESET",
    message := str "read ECONNRESET", response := [],
    asString := str "Error: read ECONNRESET" }

/-- Sample error carrying a 454 temporary authentication failure response,
with mixed letter case in the surrounding text. -/
def errTempAuth : ErrObj :=
  { responseCode := none, code := [],
    message := str "Invalid login: 454 4.7.0 Temporary Authentication Failure",
    response := [], asString := str "Error" }

/-- Sample permanent recipient-specific error (mailbox rejection). -/
def errOther : ErrObj :=
  { responseCode := some 550, code := str "EENVELOPE",
    message := str "550 mailbox unavailable", response := [],
    asString := str "Error: 550 mailbox unavailable" }

theorem C5_classifier_witness :
    classify errEconnreset = .NETWORK ∧ classify errTempAuth = .TEMP_AUTH ∧
      classify errOther = .OTHER :=
  ⟨C5_classifier_total_deterministic.2.2.1 errEconnreset rfl (by decide),
   C5_classifier_total_deterministic.2.2.2.1 errTempAuth (Or.inl (by decide)),
   C5_classifier_total_deterministic.2.2.2.2.1 errOther (by decide) (by decide)⟩

/-- An open per-recipient attribute map: JSON object entries in original
insertion order.  A value of `none` models a JS `null` (or `undefined`)
property value; string values are already JS strings. -/
abbrev Attrs := List (Str × Option Str)

/-- Models the JS coercion `rawValue == null ? "" : String(rawValue)` used by
`applyTemplate`. -/
def optValue : Option Str → Str
  | none => []
  | some v => v

/-- Embeds `getField` from server.js: find the first key of the recipient row
matching the field name case-insensitively; return the default when no key
matches or the matched value is null. -/
def getField (recipient : Attrs) (fieldName defaultValue : Str) : Str :=
  match recipient.find? (fun kv => lowerStr kv.1 == lowerStr fieldName) with
  | none => defaultValue
  | some kv =>
    match kv.2 with
    | none => defaultValue
    | some v => v

/-- The opening brace character, written by code point. -/
def lbrace : Char := '\x7b'

/-- The closing brace character, written by code point. -/
def rbrace : Char := '\x7d'

/-- The literal placeholder token for a key.  server.js builds
`new RegExp("\\" + lbrace + escapeRegExp(key) + "\\" + rbrace, "g")`: because
the key is regex-escaped, the regex matches exactly this literal
brace-delimited text. -/
def pat (key : Str) : Str := lbrace :: (key ++ [rbrace])

/-- Embeds one `result.replace(pattern, value)` step of `applyTemplate`:
replace every left-to-right, non-overlapping occurrence of the placeholder
token with the value; the substituted value is not rescanned, scanning
resumes after the matched text (JS `String.prototype.replace` with a global
regex). -/
def replaceFuel (key value : Str) : Nat → Str → Str
  | 0, s => s
  | _, [] => []
  | f + 1, c :: s =>
    if (pat key).isPrefixOf (c :: s) then
      value ++ replaceFuel key value f (s.drop (key.length + 1))
    else
      c :: replaceFuel key value f s

/-- The replacement step, entered with enough fuel for the whole scan (the
fuel only serves structural termination: `replaceFuel_congr` shows any fuel
at least the string length gives the same result). -/
def replacePlaceholder (key value : Str) (s : Str) : Str :=
  replaceFuel key value s.length s

theorem replaceFuel_congr (key value : Str) :
    ∀ (f₁ : Nat) (f₂ : Nat) (s : Str), s.length ≤ f₁ → s.length ≤ f₂ →
      replaceFuel key value f₁ s = replaceFuel key value f₂ s := by
  intro f₁
  induction f₁ with
  | zero =>
    intro f₂ s h₁ _
    have : s = [] := List.length_eq_zero.mp (Nat.le_zero.mp h₁)
    subst this
    cases f₂ <;> rfl
  | succ g ih =>
    intro f₂ s h₁ h₂
    cases s with
    | nil => cases f₂ <;> rfl
    | cons c s' =>
      cases f₂ with
      | zero => exact absurd h₂ (by simp)
      | succ h =>
        simp only [replaceFuel]
        have h₁' : s'.length ≤ g := by simpa using h₁
        have h₂' : s'.length ≤ h := by simpa using h₂
        by_cases hp : (pat key).isPrefixOf (c :: s')
        · rw [if_pos hp, if_pos hp]
          congr 1
          apply ih
          · simp only [List.length_drop]; omega
          · simp only [List.length_drop]; omega
        · rw [if_neg hp, if_neg hp]
          congr 1
          exact ih h s' h₁' h₂'

theorem replacePlaceholder_nil (key value : Str) :
    replacePlaceholder key value [] = [] := rfl

theorem replacePlaceholder_cons (key value : Str) (c : Char) (s : Str) :
    replacePlaceholder key value (c :: s) =
      if (pat key).isPrefixOf (c :: s) then
        value ++ replacePlaceholder key value (s.drop (key.length + 1))
      else
        c :: replacePlaceholder key value s := by
  show replaceFuel key value (s.length + 1) (c :: s) = _
  simp only [replaceFuel]
  by_cases hp : (pat key).isPrefixOf (c :: s)
  · rw [if_pos hp, if_pos hp]
    congr 1
    apply replaceFuel_congr
    · simp only [List.length_drop]; omega
    · exact Nat.le_refl _
  · rw [if_neg hp, if_neg hp]
    rfl

/-- Embeds `applyTemplate` from server.js: fold the replacement step over the
recipient's entries in insertion order; empty keys are skipped
(`if (!key) continue`), null values substitute the empty string.  For a
falsy (empty) template the JS early-returns `""`, which coincides with
folding from the empty string since every step maps `""` to `""`. -/
def applyTemplate (template : Str) (recipient : Attrs) : Str :=
  recipient.foldl
    (fun result kv =>
      if kv.1 = [] then result
      else replacePlaceholder kv.1 (optValue kv.2) result)
    template

/-- Embeds the `vars = { Name: name, ...recipient }` construction of
`sendToRecipientWithRetry`, with `name = getField(recipient, "Name",
"Candidate")`.  JS object spread: an exact-case `Name` property of the
recipient overrides the fallback value while keeping the first position;
every other entry follows in its original order. -/
def varsOf (recipient : Attrs) : Attrs :=
  (str "Name",
    match recipient.find? (fun kv => kv.1 == str "Name") with
    | some kv => kv.2
    | none => some (getField recipient (str "Name") (str "Candidate"))) ::
  recipient.filter (fun kv => !(kv.1 == str "Name"))

/-- Rendering of a template for one recipient as performed by
`sendToRecipientWithRetry` (and the PDF endpoints): apply the template to the
recipient's attributes extended with the synthetic Name fallback. -/
def renderWithVars (template : Str) (recipient : Attrs) : Str :=
  applyTemplate template (varsOf recipient)

/-- A string containing neither brace character. -/
def Braceless (s : Str) : Prop := ∀ c ∈ s, c ≠ lbrace ∧ c ≠ rbrace

instance (s : Str) : Decidable (Braceless s) := by
  unfold Braceless
  infer_instance

section TemplateLemmas

theorem pat_ne_nil (key : Str) : pat key ≠ [] := by simp [pat]

theorem lbrace_mem_pat (key : Str) : lbrace ∈ pat key := by simp [pat]

theorem Braceless.tail {a : Char} {s : Str} (h : Braceless (a :: s)) :
    Braceless s :=
  fun c hc => h c (List.mem_cons_of_mem a hc)

theorem Braceless.head {a : Char} {s : Str} (h : Braceless (a :: s)) :
    a ≠ lbrace ∧ a ≠ rbrace :=
  h a (List.mem_cons_self a s)

theorem replacePlaceholder_no_match (key value : Str) :
    ∀ s : Str, ¬ (pat key) <:+: s → replacePlaceholder key value s = s := by
  intro s
  induction s with
  | nil => intro _; rfl
  | cons c t ih =>
    intro h
    rw [replacePlaceholder_cons]
    rw [if_neg fun hp => h (List.isPrefixOf_iff_prefix.mp hp).isInfix]
    rw [ih fun hi => h (List.infix_cons hi)]

theorem replacePlaceholder_of_no_lbrace (key value : Str) (s : Str)
    (h : lbrace ∉ s) : replacePlaceholder key value s = s :=
  replacePlaceholder_no_match key value s
    (fun hi => h (hi.subset (lbrace_mem_pat key)))

theorem applyTemplate_cons (t : Str) (kv : Str × Option Str) (m : Attrs) :
    applyTemplate t (kv :: m) =
      applyTemplate
        (if kv.1 = [] then t else replacePlaceholder kv.1 (optValue kv.2) t)
        m := rfl

theorem applyTemplate_id (t : Str) (m : Attrs)
    (h : ∀ kv ∈ m, kv.1 ≠ [] → ¬ (pat kv.1) <:+: t) :
    applyTemplate t m = t := by
  induction m with
  | nil => rfl
  | cons kv m ih =>
    rw [applyTemplate_cons]
    by_cases hk : kv.1 = []
    · rw [if_pos hk]
      exact ih fun kv2 h2 => h kv2 (List.mem_cons_of_mem kv h2)
    · rw [if_neg hk]
      rw [replacePlaceholder_no_match kv.1 (optValue kv.2) t
        (h kv (List.mem_cons_self kv m) hk)]
      exact ih fun kv2 h2 => h kv2 (List.mem_cons_of_mem kv h2)

theorem applyTemplate_of_no_lbrace (t : Str) (m : Attrs) (h : lbrace ∉ t) :
    applyTemplate t m = t :=
  applyTemplate_id t m
    (fun kv _ _ hi => h (hi.subset (lbrace_mem_pat kv.1)))

theorem drop_head_mem :
    ∀ (u : Str) (i : Nat), i < u.length → ∃ c t, u.drop i = c :: t ∧ c ∈ u := by
  intro u
  induction u with
  | nil => intro i h; simp at h
  | cons a u ih =>
    intro i h
    match i with
    | 0 => exact ⟨a, u, rfl, List.mem_cons_self a u⟩
    | i + 1 =>
      obtain ⟨c, t, hd, hm⟩ := ih i (by simpa using h)
      exact ⟨c, t, by simpa using hd, List.mem_cons_of_mem a hm⟩

theorem pat_drop_head (key : Str) (hk : Braceless key) (j : Nat) (h1 : 1 ≤ j)
    (h2 : j < (pat key).length) :
    ∃ c t, (pat key).drop j = c :: t ∧ c ≠ lbrace := by
  match j, h1 with
  | j + 1, _ =>
    have h2' : j < (key ++ [rbrace]).length := by
      simpa [pat] using h2
    obtain ⟨c, t, hd, hm⟩ := drop_head_mem (key ++ [rbrace]) j h2'
    refine ⟨c, t, ?_, ?_⟩
    · simpa [pat] using hd
    · rcases List.mem_append.mp hm with hm | hm
      · exact (hk c hm).1
      · have : c = rbrace := by simpa using hm
        subst this
        decide

theorem tail_mismatch :
    ∀ (k n : Str), Braceless k → Braceless n → k ≠ n →
      ∀ u, ¬ ((k ++ [rbrace]) <+: ((n ++ [rbrace]) ++ u)) := by
  intro k
  induction k with
  | nil =>
    intro n hk hn hne u h
    match n with
    | [] => exact hne rfl
    | b :: n' =>
      have hb : rbrace = b := by
        have h' : rbrace :: ([] : Str) <+: b :: ((n' ++ [rbrace]) ++ u) := by
          simpa using h
        exact (List.cons_prefix_cons.mp h').1
      exact ((hn b (List.mem_cons_self b n')).2) hb.symm
  | cons a k' ih =>
    intro n hk hn hne u h
    match n with
    | [] =>
      have ha : a = rbrace := by
        have h' : a :: (k' ++ [rbrace]) <+: rbrace :: u := by simpa using h
        exact (List.cons_prefix_cons.mp h').1
      exact ((hk a (List.mem_cons_self a k')).2) ha
    | b :: n' =>
      have h' : a :: (k' ++ [rbrace]) <+: b :: ((n' ++ [rbrace]) ++ u) := by
        simpa using h
      obtain ⟨hab, htail⟩ := List.cons_prefix_cons.mp h'
      subst hab
      have hne' : k' ≠ n' := fun he => hne (by rw [he])
      exact ih n' hk.tail hn.tail hne' u htail

theorem pat_not_prefix_pat_append {k n : Str} (hk : Braceless k)
    (hn : Braceless n) (hne : k ≠ n) (u : Str) :
    ¬ (pat k) <+: (pat n ++ u) := by
  intro h
  have h' : (k ++ [rbrace]) <+: ((n ++ [rbrace]) ++ u) := by
    have h2 : lbrace :: (k ++ [rbrace]) <+: lbrace :: ((n ++ [rbrace]) ++ u) := by
      simpa [pat] using h
    exact (List.cons_prefix_cons.mp h2).2
  exact tail_mismatch k n hk hn hne u h'

theorem replace_copies_over (k v : Str) :
    ∀ (t u : Str), (∀ j, j < t.length → ¬ (pat k) <+: (t.drop j ++ u)) →
      replacePlaceholder k v (t ++ u) = t ++ replacePlaceholder k v u := by
  intro t
  induction t with
  | nil => intro u _; simp
  | cons c t' ih =>
    intro u h
    have h0 : ¬ (pat k) <+: (c :: (t' ++ u)) := by
      have := h 0 (by simp)
      simpa using this
    rw [List.cons_append]
    rw [replacePlaceholder_cons]
    rw [if_neg fun hp => h0 (List.isPrefixOf_iff_prefix.mp hp)]
    rw [ih u fun j hj => by simpa using h (j + 1) (by simpa using hj)]
    rfl

theorem replace_pat_append (k v n : Str) (hk : Braceless k) (hn : Braceless n)
    (hne : k ≠ n) (u : Str) :
    replacePlaceholder k v (pat n ++ u) = pat n ++ replacePlaceholder k v u := by
  apply replace_copies_over
  intro j hj h
  match j with
  | 0 =>
    exact pat_not_prefix_pat_append hk hn hne u (by simpa using h)
  | j + 1 =>
    obtain ⟨c, t, hd, hc⟩ := pat_drop_head n hn (j + 1) (by omega) hj
    rw [hd] at h
    have hl : lbrace = c := by
      have h' : lbrace :: (k ++ [rbrace]) <+: c :: (t ++ u) := by
        simpa [pat] using h
      exact (List.cons_prefix_cons.mp h').1
    exact hc hl.symm

end TemplateLemmas

theorem replace_preserves_pat_aux (k v n : Str) (hk : Braceless k)
    (hn : Braceless n) (hne : k ≠ n) :
    ∀ (L : Nat) (s : Str), s.length ≤ L → (pat n) <:+: s →
      (pat n) <:+: replacePlaceholder k v s := by
  intro L
  induction L with
  | zero =>
    intro s hs h
    have hnil : s = [] := List.length_eq_zero.mp (Nat.le_zero.mp hs)
    subst hnil
    exact absurd (List.infix_nil.mp h) (pat_ne_nil n)
  | succ L IH =>
    intro s hs h
    by_cases hpre : (pat n) <+: s
    · obtain ⟨u, rfl⟩ := hpre
      rw [replace_pat_append k v n hk hn hne u]
      exact (List.prefix_append (pat n) (replacePlaceholder k v u)).isInfix
    · cases s with
      | nil => exact absurd (List.infix_nil.mp h) (pat_ne_nil n)
      | cons c s' =>
        have htail : (pat n) <:+: s' := by
          rcases List.infix_cons_iff.mp h with h' | h'
          · exact absurd h' hpre
          · exact h'
        have hs' : s'.length ≤ L := by
          have : s'.length + 1 ≤ L + 1 := by simpa using hs
          omega
        rw [replacePlaceholder_cons]
        by_cases hp : (pat k).isPrefixOf (c :: s')
        · rw [if_pos hp]
          obtain ⟨w, hw⟩ := List.isPrefixOf_iff_prefix.mp hp
          obtain ⟨A, B, hAB⟩ := h
          have hApos : A ≠ [] := by
            intro hA
            subst hA
            exact hpre ⟨B, by simpa using hAB⟩
          have hlen : (pat k).length ≤ A.length := by
            by_contra hlt
            push_neg at hlt
            have h1 : 1 ≤ A.length := by
              cases A with
              | nil => exact absurd rfl hApos
              | cons a A' => simp
            obtain ⟨c₂, t₂, hd₂, hc₂⟩ := pat_drop_head k hk A.length h1 hlt
            have e1 : (c :: s').drop A.length = pat n ++ B := by
              rw [← hAB, List.append_assoc]
              exact List.drop_left A (pat n ++ B)
            have e2 : (c :: s').drop A.length = (pat k).drop A.length ++ w := by
              rw [← hw]
              exact List.drop_append_of_le_length (Nat.le_of_lt hlt)
            rw [e1, hd₂] at e2
            have hhd : lbrace = c₂ := by
              have := congrArg List.head? e2
              simpa [pat] using this
            exact hc₂ hhd.symm
          have hdrop : (pat n) <:+: s'.drop (k.length + 1) := by
            have e3 : s'.drop (k.length + 1) =
                A.drop (pat k).length ++ pat n ++ B := by
              have e4 : s'.drop (k.length + 1) = (c :: s').drop (pat k).length := by
                simp [pat]
              rw [e4, ← hAB, List.append_assoc,
                List.drop_append_of_le_length hlen, ← List.append_assoc]
            rw [e3]
            exact ⟨A.drop (pat k).length, B, rfl⟩
          have hlen₂ : (s'.drop (k.length + 1)).length ≤ L := by
            simp only [List.length_drop]
            omega
          obtain ⟨A₂, B₂, hA₂⟩ := IH (s'.drop (k.length + 1)) hlen₂ hdrop
          exact ⟨v ++ A₂, B₂, by rw [← hA₂]; simp⟩
        · rw [if_neg hp]
          exact List.infix_cons (IH s' hs' htail)

theorem replace_preserves_pat (k v n : Str) (hk : Braceless k)
    (hn : Braceless n) (hne : k ≠ n) (s : Str) (h : (pat n) <:+: s) :
    (pat n) <:+: replacePlaceholder k v s :=
  replace_preserves_pat_aux k v n hk hn hne s.length s (Nat.le_refl _) h

theorem applyTemplate_preserves_pat (n : Str) (hn : Braceless n) (m : Attrs)
    (hkeys : ∀ kv ∈ m, Braceless kv.1) (hnk : ∀ kv ∈ m, kv.1 ≠ n) :
    ∀ t, (pat n) <:+: t → (pat n) <:+: applyTemplate t m := by
  induction m with
  | nil => intro t h; exact h
  | cons kv m ih =>
    intro t h
    rw [applyTemplate_cons]
    by_cases hk0 : kv.1 = []
    · rw [if_pos hk0]
      exact ih (fun kv2 h2 => hkeys kv2 (List.mem_cons_of_mem kv h2))
        (fun kv2 h2 => hnk kv2 (List.mem_cons_of_mem kv h2)) t h
    · rw [if_neg hk0]
      exact ih (fun kv2 h2 => hkeys kv2 (List.mem_cons_of_mem kv h2))
        (fun kv2 h2 => hnk kv2 (List.mem_cons_of_mem kv h2))
        (replacePlaceholder kv.1 (optValue kv.2) t)
        (replace_preserves_pat kv.1 (optValue kv.2) n
          (hkeys kv (List.mem_cons_self kv m)) hn
          (hnk kv (List.mem_cons_self kv m)) t h)

theorem applyTemplate_nil_template (m : Attrs) : applyTemplate [] m = [] := by
  induction m with
  | nil => rfl
  | cons kv m ih =>
    rw [applyTemplate_cons]
    by_cases hk : kv.1 = []
    · rw [if_pos hk]; exact ih
    · rw [if_neg hk, replacePlaceholder_nil]; exact ih

/-- The key of the C7 counterexample map: the three characters a, closing
brace, x. -/
def cexKey : Str := str "a\x7dx"

/-- The C7 counterexample template, the five characters
brace a brace x brace: it contains the placeholder token for the braceless
name a, and is itself exactly the placeholder token of `cexKey`. -/
def cexTemplate : Str := pat cexKey

/-- The C7 counterexample attribute map. -/
def cexMap : Attrs := [(cexKey, some (str "GONE"))]

/-- C7 counterexample: the template contains the placeholder for the name
a, the name a is not a key of the map, yet rendering does not leave that
placeholder verbatim — the whole template is consumed by the brace-bearing
key of the map and the output no longer contains the placeholder. -/
theorem C7_unmatched_counterexample :
    strIncludes (pat (str "a")) cexTemplate = true ∧
    (∀ kv ∈ cexMap, kv.1 ≠ str "a") ∧
    applyTemplate cexTemplate cexMap = str "GONE" ∧
    strIncludes (pat (str "a")) (applyTemplate cexTemplate cexMap) = false := by
  decide

/-- C7 (amended): rendering with the empty attribute map is the identity;
rendering is the identity whenever no (nonempty) key of the map has its
placeholder token occurring in the template; and — provided the placeholder
name and every map key are brace-free — each placeholder whose name is not a
key of the map still occurs verbatim in the rendered output. -/
theorem C7_unmatched_placeholders_amended :
    (∀ t : Str, applyTemplate t [] = t) ∧
    (∀ (t : Str) (m : Attrs),
      (∀ kv ∈ m, kv.1 ≠ [] → strIncludes (pat kv.1) t = false) →
      applyTemplate t m = t) ∧
    (∀ (t n : Str) (m : Attrs), Braceless n →
      (∀ kv ∈ m, Braceless kv.1) →
      (∀ kv ∈ m, kv.1 ≠ n) →
      strIncludes (pat n) t = true →
      strIncludes (pat n) (applyTemplate t m) = true) := by
  refine ⟨fun t => rfl, ?_, ?_⟩
  · intro t m h
    apply applyTemplate_id
    intro kv hm hk hinf
    have h2 := h kv hm hk
    have h3 := (strIncludes_iff (pat kv.1) t).mpr hinf
    rw [h2] at h3
    exact Bool.false_ne_true h3
  · intro t n m hn hkeys hnk hin
    rw [strIncludes_iff] at hin ⊢
    exact applyTemplate_preserves_pat n hn m hkeys hnk t hin

theorem C7_unmatched_placeholders_witness :
    applyTemplate (pat (str "Name")) [(str "Other", some (str "x"))] =
      pat (str "Name") ∧
    strIncludes (pat (str "a"))
      (applyTemplate (str "x\x7ba\x7dy") [(str "b", some (str "B"))]) = true :=
  ⟨C7_unmatched_placeholders_amended.2.1 (pat (str "Name"))
      [(str "Other", some (str "x"))] (by decide),
   C7_unmatched_placeholders_amended.2.2 (str "x\x7ba\x7dy") (str "a")
      [(str "b", some (str "B"))] (by decide) (by decide) (by decide)
      (by decide)⟩

/-- Attribute map holding a case-variant Name key with a null value:
JS `{ name: null }`. -/
def recNullName : Attrs := [(str "name", none)]

/-- C8 counterexample: the map `recNullName` does contain a key equal to
Name under case-insensitive comparison, yet rendering the Name placeholder
substitutes the synthetic fallback Candidate — because `getField` falls back
on the null value and the spread does not override the exact-case `Name`
entry. -/
theorem C8_name_fallback_counterexample :
    (∃ kv ∈ recNullName, lowerStr kv.1 = str "name") ∧
    renderWithVars (pat (str "Name")) recNullName = str "Candidate" := by
  decide

theorem varsOf_find_none (rec : Attrs)
    (h : rec.find? (fun kv => kv.1 == str "Name") = none) :
    varsOf rec =
      (str "Name", some (getField rec (str "Name") (str "Candidate"))) ::
        rec.filter (fun kv => !(kv.1 == str "Name")) := by
  unfold varsOf
  rw [h]

theorem varsOf_find_some (rec : Attrs) (kv₀ : Str × Option Str)
    (h : rec.find? (fun kv => kv.1 == str "Name") = some kv₀) :
    varsOf rec =
      (str "Name", kv₀.2) :: rec.filter (fun kv => !(kv.1 == str "Name")) := by
  unfold varsOf
  rw [h]

theorem getField_find_none (rec : Attrs) (f d : Str)
    (h : rec.find? (fun kv => lowerStr kv.1 == lowerStr f) = none) :
    getField rec f d = d := by
  unfold getField
  rw [h]

theorem getField_find_null (rec : Attrs) (f d : Str) (kv₀ : Str × Option Str)
    (h : rec.find? (fun kv => lowerStr kv.1 == lowerStr f) = some kv₀)
    (h2 : kv₀.2 = none) : getField rec f d = d := by
  unfold getField
  rw [h]
  show (match kv₀.2 with | none => d | some v => v) = d
  rw [h2]

theorem applyTemplate_name_cons (v : Option Str) (t : Str) (m : Attrs) :
    applyTemplate t ((str "Name", v) :: m) =
      applyTemplate (replacePlaceholder (str "Name") (optValue v) t) m := by
  rw [applyTemplate_cons]
  have hne : ((str "Name", v) : Str × Option Str).1 ≠ [] := by
    show str "Name" ≠ []
    decide
  rw [if_neg hne]

/-- C8 (amended): the Candidate fallback is substituted for the Name
placeholder exactly when the recipient has no case-insensitive Name key, or
when it has no exact-case Name key and the first case-insensitive match
carries a null value; an exact-case Name key with an explicit empty-string
value renders the empty string, not Candidate. -/
theorem C8_name_fallback_amended :
    (∀ rec : Attrs, (∀ kv ∈ rec, lowerStr kv.1 ≠ str "name") →
      renderWithVars (pat (str "Name")) rec = str "Candidate") ∧
    (∀ rec : Attrs,
      rec.find? (fun kv => kv.1 == str "Name") = some (str "Name", some []) →
      renderWithVars (pat (str "Name")) rec = []) ∧
    (∀ (rec : Attrs) (kv₀ : Str × Option Str),
      rec.find? (fun kv => kv.1 == str "Name") = none →
      rec.find? (fun kv => lowerStr kv.1 == lowerStr (str "Name")) = some kv₀ →
      kv₀.2 = none →
      renderWithVars (pat (str "Name")) rec = str "Candidate") := by
  refine ⟨?_, ?_, ?_⟩
  · intro rec h
    have hexact : rec.find? (fun kv => kv.1 == str "Name") = none := by
      rw [List.find?_eq_none]
      intro kv hkv he
      have he' : kv.1 = str "Name" := by simpa using he
      exact h kv hkv (by rw [he']; decide)
    have hci : rec.find?
        (fun kv => lowerStr kv.1 == lowerStr (str "Name")) = none := by
      rw [List.find?_eq_none]
      intro kv hkv he
      have he' : lowerStr kv.1 = lowerStr (str "Name") := by simpa using he
      exact h kv hkv (by rw [he']; decide)
    unfold renderWithVars
    rw [varsOf_find_none rec hexact, getField_find_none rec _ _ hci,
      applyTemplate_name_cons]
    rw [show replacePlaceholder (str "Name") (optValue (some (str "Candidate")))
        (pat (str "Name")) = str "Candidate" from by decide]
    exact applyTemplate_of_no_lbrace _ _ (by decide)
  · intro rec hexact
    unfold renderWithVars
    rw [varsOf_find_some rec _ hexact, applyTemplate_name_cons]
    rw [show replacePlaceholder (str "Name") (optValue (some []))
        (pat (str "Name")) = [] from by decide]
    exact applyTemplate_nil_template _
  · intro rec kv₀ hexact hci hnull
    unfold renderWithVars
    rw [varsOf_find_none rec hexact,
      getField_find_null rec _ _ kv₀ hci hnull, applyTemplate_name_cons]
    rw [show replacePlaceholder (str "Name") (optValue (some (str "Candidate")))
        (pat (str "Name")) = str "Candidate" from by decide]
    exact applyTemplate_of_no_lbrace _ _ (by decide)

theorem C8_name_fallback_witness :
    renderWithVars (pat (str "Name")) [(str "Email", some (str "e@x.com"))] =
      str "Candidate" ∧
    renderWithVars (pat (str "Name")) [(str "Name", some [])] = [] ∧
    renderWithVars (pat (str "Name")) [(str "name", none)] = str "Candidate" :=
  ⟨C8_name_fallback_amended.1 [(str "Email", some (str "e@x.com"))] (by decide),
   C8_name_fallback_amended.2.1 [(str "Name", some [])] (by decide),
   C8_name_fallback_amended.2.2 [(str "name", none)] (str "name", none)
     (by decide) (by decide) rfl⟩

/-- Outcome of one transport operation attempt (one `transporter.verify()` or
`transporter.sendMail()` call): normal return, or a thrown error. -/
inductive AttemptOutcome where
  | ok
  | fail (e : ErrObj)

/-- Retry budget of server.js: `MAX_RETRIES = 3`. -/
def MAX_RETRIES : Nat := 3

/-- Result record of `sendToRecipientWithRetry`:
`{ email, status, attempt, error?, reason? }` (the last two fields are
present only on the error paths). -/
structure SendRes where
  email : Str
  status : Str
  attempt : Nat
  error : Option Str
  reason : Option FailClass
deriving DecidableEq

/-- Embeds the retry loop of `sendToRecipientWithRetry` (attempts counted
from 1; the oracle gives each numbered sendMail call's outcome): success
returns a sent record with the attempt number; a failure is classified and
retried while the class is TEMP_AUTH or NETWORK and attempts remain,
otherwise the error record is returned with
`reason = tempAuth ? TEMP_AUTH : netErr ? NETWORK : OTHER` (the `classify`
expression).  A `none` result models the JS `for` loop falling through and
the function returning `undefined`; `sendAttempts_total` below shows the
loop entry never produces it. -/
def sendAttempts (oracle : Nat → AttemptOutcome) (email : Str) :
    Nat → Nat → Option SendRes
  | _, 0 => none
  | attempt, f + 1 =>
    match oracle attempt with
    | .ok => some ⟨email, str "sent", attempt, none, none⟩
    | .fail e =>
      if (isTemporaryAuthError (some e) || isNetworkError (some e)) = true ∧
          attempt < MAX_RETRIES then
        sendAttempts oracle email (attempt + 1) f
      else
        some ⟨email, str "error", attempt, some (errText e), some (classify e)⟩

/-- The missing-email error message of server.js. -/
def missingEmailMsg : Str := str "Missing Email field in recipient row"

/-- Embeds `sendToRecipientWithRetry` from server.js.  The email is the
case-insensitive Email field (default empty); a falsy email short-circuits
with the attempt-0 OTHER error record before any transport call.  The
personalised subject and body only shape the transmitted message, which the
oracle abstracts, so they do not appear in the returned record. -/
def sendToRecipientWithRetry (oracle : Nat → AttemptOutcome)
    (recipient : Attrs) : Option SendRes :=
  let email := getField recipient (str "Email") []
  if email = [] then
    some ⟨[], str "error", 0, some missingEmailMsg, some .OTHER⟩
  else
    sendAttempts oracle email 1 MAX_RETRIES

/-- Embeds `verifySmtpWithRetry` from server.js, same retry shape as
`sendAttempts`: `some none` models a normal return (verify succeeded),
`some (some e)` models the function throwing `e`, and the outer `none`
models the loop falling through (the function would return `undefined`
without throwing, so the caller proceeds as on success). -/
def verifySmtpWithRetry (oracle : Nat → AttemptOutcome) :
    Nat → Nat → Option (Option ErrObj)
  | _, 0 => none
  | attempt, f + 1 =>
    match oracle attempt with
    | .ok => some none
    | .fail e =>
      if (isTemporaryAuthError (some e) || isNetworkError (some e)) = true ∧
          attempt < MAX_RETRIES then
        verifySmtpWithRetry oracle (attempt + 1) f
      else
        some (some e)

/-- The mutable state of the send loop in `/api/send-emails`: the `results`
array, the `sentCount` and `failedCount` counters and the `stoppedAt`
variable. -/
structure LoopSt where
  results : List SendRes
  sentCount : Nat
  failedCount : Nat
  stoppedAt : Option Nat
deriving DecidableEq

/-- The circuit-breaker test of the send loop:
`r.status === "error" && (r.reason === "NETWORK" || r.reason === "TEMP_AUTH")`. -/
def infraError (r : SendRes) : Prop :=
  r.status = str "error" ∧
    (r.reason = some .NETWORK ∨ r.reason = some .TEMP_AUTH)

instance (r : SendRes) : Decidable (infraError r) := by
  unfold infraError
  infer_instance

/-- Embeds the recipient loop of `/api/send-emails` (processing recipients
sequentially from index `i`): push the result, bump the counter matching its
status, persist the row, and on an infrastructure-class error record the
stop index and break.  The `none` match arm is unreachable
(`sendToRecipientWithRetry_total`): there the JS handler would crash on an
undefined result before updating anything further. -/
def runSendLoop (oracle : Nat → Nat → AttemptOutcome) :
    List Attrs → Nat → LoopSt → LoopSt
  | [], _, st => st
  | rec :: rest, i, st =>
    match sendToRecipientWithRetry (oracle i) rec with
    | none => st
    | some r =>
      let st₂ : LoopSt :=
        { results := st.results ++ [r],
          sentCount :=
            st.sentCount + (if r.status = str "sent" then 1 else 0),
          failedCount :=
            st.failedCount + (if r.status = str "error" then 1 else 0),
          stoppedAt := st.stoppedAt }
      if infraError r then
        { st₂ with stoppedAt := some i }
      else
        runSendLoop oracle rest (i + 1) st₂

/-- One `batch_recipients` ledger row (the columns the claims speak about;
`email` and `name` are written once at INSERT time and never updated). -/
structure RecRow where
  idx : Nat
  email : Str
  name : Str
  status : Str
  attempt : Nat
  error : Option Str
deriving DecidableEq

/-- The freshly inserted pending row for recipient `rec` at index `i`:
`VALUES (?, ?, ?, ?, ?, 'pending', 0)`. -/
def pendingRow (i : Nat) (rec : Attrs) : RecRow :=
  { idx := i,
    email := getField rec (str "Email") [],
    name := getField rec (str "Name") [],
    status := str "pending",
    attempt := 0,
    error := none }

/-- The ledger row after the `updateRec.run(statusForDb, r.attempt ?? 0,
r.error ?? null, batchId, i)` update for result `r`. -/
def updatedRow (i : Nat) (rec : Attrs) (r : SendRes) : RecRow :=
  { idx := i,
    email := getField rec (str "Email") [],
    name := getField rec (str "Name") [],
    status := if r.status = str "sent" then str "sent" else str "error",
    attempt := r.attempt,
    error := r.error }

/-- The final contents of the batch's recipient rows: row `i` is updated
with the `i`-th result when the loop processed index `i`, and still pending
otherwise. -/
def finalRows (recipients : List Attrs) (results : List SendRes) :
    List RecRow :=
  recipients.enum.map fun p =>
    match results[p.1]? with
    | some r => updatedRow p.1 p.2 r
    | none => pendingRow p.1 p.2

/-- The `batches` ledger row as finalized by `updateBatch.run` (the columns
the claims speak about). -/
structure BatchRow where
  total : Nat
  sent : Nat
  failed : Nat
  processed : Nat
  status : Str
  stoppedAt : Option Nat
  error : Option Str
deriving DecidableEq

/-- JS truthiness of the `stoppedAt` variable (`null` or a number): falsy
exactly when null or zero — the `!stoppedAt` test of server.js. -/
def jsTruthy : Option Nat → Bool
  | none => false
  | some n => !(n == 0)

/-- The HTTP response of `/api/send-emails`: a 400 validation rejection, the
500 verify-failure report `{ error, details: err.message, code: err.code }`,
or the 200 JSON summary. -/
inductive Response where
  | badRequest (msg : Str)
  | serverError (msg : Str) (details : Str) (code : Str)
  | okJson (sent failed total processed : Nat) (stoppedAt : Option Nat)
      (results : List SendRes)
deriving DecidableEq

/-- Everything observable of one `/api/send-emails` run: the response, the
finalized batch row (none when validation rejected the request before the
INSERT) and the final recipient rows. -/
structure HandlerResult where
  response : Response
  batch : Option BatchRow
  rows : List RecRow
deriving DecidableEq

/-- Embeds the `/api/send-emails` handler of server.js over a verify oracle
and a per-recipient send oracle: validate, create the batch and pending
rows, verify with retry (finalizing `stopped` with zero counts and a 500 on
a thrown error), run the send loop, and finalize the batch row with
`finalStatus = processed === total && !stoppedAt ? "completed" : "stopped"`. -/
def sendEmailsHandler (vOracle : Nat → AttemptOutcome)
    (sOracle : Nat → Nat → AttemptOutcome) (recipients : List Attrs)
    (subject htmlBody : Str) : HandlerResult :=
  if recipients = [] then
    ⟨.badRequest (str "recipients must be a non-empty array"), none, []⟩
  else if subject = [] ∨ htmlBody = [] then
    ⟨.badRequest (str "subject and htmlBody are required"), none, []⟩
  else
    let total := recipients.length
    match verifySmtpWithRetry vOracle 1 MAX_RETRIES with
    | some (some e) =>
      ⟨.serverError (str "SMTP connection failed") e.message e.code,
       some { total := total, sent := 0, failed := 0, processed := 0,
              status := str "stopped", stoppedAt := none,
              error := some (str "SMTP verify failed: " ++ errText e) },
       finalRows recipients []⟩
    | _ =>
      let final := runSendLoop sOracle recipients 0 ⟨[], 0, 0, none⟩
      let processed := final.results.length
      let finalStatus :=
        if processed = total ∧ jsTruthy final.stoppedAt = false then
          str "completed"
        else
          str "stopped"
      ⟨.okJson final.sentCount final.failedCount total processed
         final.stoppedAt final.results,
       some { total := total, sent := final.sentCount,
              failed := final.failedCount, processed := processed,
              status := finalStatus, stoppedAt := final.stoppedAt,
              error := none },
       finalRows recipients final.results⟩

theorem sendAttempts_spec (oracle : Nat → AttemptOutcome) (email : Str) :
    ∀ (f a : Nat), a ≤ MAX_RETRIES → MAX_RETRIES + 1 ≤ a + f →
      ∃ r, sendAttempts oracle email a f = some r ∧
        a ≤ r.attempt ∧ r.attempt ≤ MAX_RETRIES ∧ r.email = email ∧
        (r.status = str "sent" ∧ r.error = none ∧ r.reason = none ∨
          r.status = str "error" ∧
            ∃ e, r.error = some (errText e) ∧ r.reason = some (classify e)) := by
  intro f
  induction f with
  | zero =>
    intro a h₁ h₂
    exact absurd h₂ (by omega)
  | succ g ih =>
    intro a h₁ h₂
    simp only [sendAttempts]
    cases horacle : oracle a with
    | ok =>
      exact ⟨⟨email, str "sent", a, none, none⟩, rfl, Nat.le_refl a, h₁, rfl,
        Or.inl ⟨rfl, rfl, rfl⟩⟩
    | fail e =>
      dsimp only
      by_cases hretry :
          (isTemporaryAuthError (some e) || isNetworkError (some e)) = true ∧
            a < MAX_RETRIES
      · rw [if_pos hretry]
        obtain ⟨r, hr, hb₁, hb₂, hb₃, hb₄⟩ :=
          ih (a + 1) (by omega) (by omega)
        exact ⟨r, hr, by omega, hb₂, hb₃, hb₄⟩
      · rw [if_neg hretry]
        exact ⟨⟨email, str "error", a, some (errText e), some (classify e)⟩,
          rfl, Nat.le_refl a, h₁, rfl, Or.inr ⟨rfl, e, rfl, rfl⟩⟩

theorem sendToRecipientWithRetry_spec (oracle : Nat → AttemptOutcome)
    (rec : Attrs) :
    ∃ r, sendToRecipientWithRetry oracle rec = some r ∧
      r.attempt ≤ MAX_RETRIES ∧
      (r.status = str "sent" ∨ r.status = str "error") ∧
      (getField rec (str "Email") [] = [] →
        r = ⟨[], str "error", 0, some missingEmailMsg, some .OTHER⟩) ∧
      (getField rec (str "Email") [] ≠ [] →
        1 ≤ r.attempt ∧ r.email = getField rec (str "Email") [] ∧
        (r.status = str "sent" ∧ r.error = none ∧ r.reason = none ∨
          r.status = str "error" ∧
            ∃ e, r.error = some (errText e) ∧ r.reason = some (classify e))) := by
  unfold sendToRecipientWithRetry
  by_cases hmail : getField rec (str "Email") [] = []
  · rw [if_pos hmail]
    refine ⟨_, rfl, by decide, Or.inr rfl, fun _ => rfl, fun hne => absurd hmail hne⟩
  · rw [if_neg hmail]
    obtain ⟨r, hr, hb₁, hb₂, hb₃, hb₄⟩ :=
      sendAttempts_spec oracle (getField rec (str "Email") []) MAX_RETRIES 1
        (by decide) (by decide)
    refine ⟨r, hr, hb₂, ?_, fun he => absurd he hmail, fun _ => ⟨hb₁, hb₃, hb₄⟩⟩
    rcases hb₄ with ⟨hs, _⟩ | ⟨hs, _⟩
    · exact Or.inl hs
    · exact Or.inr hs

/-- The loop body's state update before the circuit-breaker test: push the
result, bump the counter matching its status (the `stoppedAt` variable is
untouched here). -/
def loopStep (st : LoopSt) (r : SendRes) : LoopSt :=
  { results := st.results ++ [r],
    sentCount := st.sentCount + (if r.status = str "sent" then 1 else 0),
    failedCount := st.failedCount + (if r.status = str "error" then 1 else 0),
    stoppedAt := st.stoppedAt }

theorem runSendLoop_nil (oracle : Nat → Nat → AttemptOutcome) (i : Nat)
    (st : LoopSt) : runSendLoop oracle [] i st = st := rfl

theorem runSendLoop_cons (oracle : Nat → Nat → AttemptOutcome) (rec : Attrs)
    (rest : List Attrs) (i : Nat) (st : LoopSt) (r : SendRes)
    (hr : sendToRecipientWithRetry (oracle i) rec = some r) :
    runSendLoop oracle (rec :: rest) i st =
      if infraError r then { loopStep st r with stoppedAt := some i }
      else runSendLoop oracle rest (i + 1) (loopStep st r) := by
  simp only [runSendLoop]
  rw [hr]
  rfl

theorem runSendLoop_extend (oracle : Nat → Nat → AttemptOutcome) :
    ∀ (l : List Attrs) (i : Nat) (st : LoopSt),
      ∃ tail, (runSendLoop oracle l i st).results = st.results ++ tail := by
  intro l
  induction l with
  | nil => intro i st; exact ⟨[], by simp [runSendLoop_nil]⟩
  | cons rec rest ih =>
    intro i st
    obtain ⟨r, hr, -⟩ := sendToRecipientWithRetry_spec (oracle i) rec
    rw [runSendLoop_cons oracle rec rest i st r hr]
    by_cases hinf : infraError r
    · rw [if_pos hinf]
      exact ⟨[r], rfl⟩
    · rw [if_neg hinf]
      obtain ⟨tail, htail⟩ := ih (i + 1) (loopStep st r)
      exact ⟨[r] ++ tail, by rw [htail]; simp [loopStep]⟩

theorem runSendLoop_len_le (oracle : Nat → Nat → AttemptOutcome) :
    ∀ (l : List Attrs) (i : Nat) (st : LoopSt),
      (runSendLoop oracle l i st).results.length ≤
        st.results.length + l.length := by
  intro l
  induction l with
  | nil => intro i st; simp [runSendLoop_nil]
  | cons rec rest ih =>
    intro i st
    obtain ⟨r, hr, -⟩ := sendToRecipientWithRetry_spec (oracle i) rec
    rw [runSendLoop_cons oracle rec rest i st r hr]
    by_cases hinf : infraError r
    · rw [if_pos hinf]
      simp [loopStep]
    · rw [if_neg hinf]
      have := ih (i + 1) (loopStep st r)
      simp only [loopStep, List.length_append, List.length_cons,
        List.length_nil] at this ⊢
      omega

theorem runSendLoop_counts (oracle : Nat → Nat → AttemptOutcome) :
    ∀ (l : List Attrs) (i : Nat) (st : LoopSt),
      st.sentCount + st.failedCount = st.results.length →
      (runSendLoop oracle l i st).sentCount +
          (runSendLoop oracle l i st).failedCount =
        (runSendLoop oracle l i st).results.length := by
  intro l
  induction l with
  | nil => intro i st h; simpa [runSendLoop_nil] using h
  | cons rec rest ih =>
    intro i st h
    obtain ⟨r, hr, -, hstat, -⟩ := sendToRecipientWithRetry_spec (oracle i) rec
    have hone : (if r.status = str "sent" then 1 else 0) +
        (if r.status = str "error" then 1 else 0) = 1 := by
      rcases hstat with hs | hs <;> rw [hs] <;> decide
    rw [runSendLoop_cons oracle rec rest i st r hr]
    by_cases hinf : infraError r
    · rw [if_pos hinf]
      show (loopStep st r).sentCount + (loopStep st r).failedCount =
        (loopStep st r).results.length
      simp only [loopStep, List.length_append, List.length_cons,
        List.length_nil]
      omega
    · rw [if_neg hinf]
      apply ih
      simp only [loopStep, List.length_append, List.length_cons,
        List.length_nil]
      omega

theorem runSendLoop_no_stop (oracle : Nat → Nat → AttemptOutcome) :
    ∀ (l : List Attrs) (i : Nat) (st : LoopSt), st.stoppedAt = none →
      (runSendLoop oracle l i st).stoppedAt = none →
      (runSendLoop oracle l i st).results.length =
        st.results.length + l.length := by
  intro l
  induction l with
  | nil => intro i st h1 h2; simp [runSendLoop_nil]
  | cons rec rest ih =>
    intro i st h1 h2
    obtain ⟨r, hr, -⟩ := sendToRecipientWithRetry_spec (oracle i) rec
    rw [runSendLoop_cons oracle rec rest i st r hr] at h2 ⊢
    by_cases hinf : infraError r
    · rw [if_pos hinf] at h2
      exact absurd h2 (by simp)
    · rw [if_neg hinf] at h2 ⊢
      have := ih (i + 1) (loopStep st r) (by simp [loopStep, h1]) h2
      simp only [loopStep, List.length_append, List.length_cons,
        List.length_nil] at this ⊢
      omega

theorem runSendLoop_stop (oracle : Nat → Nat → AttemptOutcome) :
    ∀ (l : List Attrs) (i : Nat) (st : LoopSt), st.stoppedAt = none →
      st.results.length = i →
      ∀ k, (runSendLoop oracle l i st).stoppedAt = some k →
        i ≤ k ∧ (runSendLoop oracle l i st).results.length = k + 1 ∧
        ∃ r, (runSendLoop oracle l i st).results[k]? = some r ∧
          infraError r := by
  intro l
  induction l with
  | nil =>
    intro i st h1 h2 k hk
    rw [runSendLoop_nil] at hk
    rw [h1] at hk
    exact absurd hk (by simp)
  | cons rec rest ih =>
    intro i st h1 h2 k hk
    obtain ⟨r, hr, -⟩ := sendToRecipientWithRetry_spec (oracle i) rec
    rw [runSendLoop_cons oracle rec rest i st r hr] at hk ⊢
    by_cases hinf : infraError r
    · rw [if_pos hinf] at hk ⊢
      have hik : i = k := by
        have : some i = some k := hk
        exact Option.some.inj this
      subst hik
      refine ⟨Nat.le_refl i, ?_, r, ?_, hinf⟩
      · show (st.results ++ [r]).length = i + 1
        simp [h2]
      · show (st.results ++ [r])[i]? = some r
        rw [← h2]
        exact List.getElem?_concat_length st.results r
    · rw [if_neg hinf] at hk ⊢
      have hstep1 : (loopStep st r).stoppedAt = none := by
        simp [loopStep, h1]
      have hstep2 : (loopStep st r).results.length = i + 1 := by
        simp [loopStep, h2]
      obtain ⟨hik, hlen, r₂, hr₂, hinf₂⟩ :=
        ih (i + 1) (loopStep st r) hstep1 hstep2 k hk
      exact ⟨by omega, hlen, r₂, hr₂, hinf₂⟩

theorem runSendLoop_infra_stops (oracle : Nat → Nat → AttemptOutcome) :
    ∀ (l : List Attrs) (i : Nat) (st : LoopSt), st.stoppedAt = none →
      st.results.length = i →
      (∀ (j : Nat) (r : SendRes), st.results[j]? = some r → ¬ infraError r) →
      ∀ (j : Nat) (r : SendRes),
        (runSendLoop oracle l i st).results[j]? = some r →
        infraError r → (runSendLoop oracle l i st).stoppedAt = some j := by
  intro l
  induction l with
  | nil =>
    intro i st h1 h2 hold j r hj hinf
    rw [runSendLoop_nil] at hj
    exact absurd hinf (hold j r hj)
  | cons rec rest ih =>
    intro i st h1 h2 hold j r₀ hj hinf
    obtain ⟨r, hr, -⟩ := sendToRecipientWithRetry_spec (oracle i) rec
    rw [runSendLoop_cons oracle rec rest i st r hr] at hj ⊢
    by_cases hinfr : infraError r
    · rw [if_pos hinfr] at hj ⊢
      have hj' : (st.results ++ [r])[j]? = some r₀ := hj
      rcases Nat.lt_trichotomy j i with hji | hji | hji
      · rw [List.getElem?_append_left (by omega)] at hj'
        exact absurd hinf (hold j r₀ hj')
      · subst hji
        show (some j : Option Nat) = some j
        rfl
      · rw [List.getElem?_eq_none
          (by simp only [List.length_append, List.length_cons,
            List.length_nil]; omega)] at hj'
        exact absurd hj' (by simp)
    · rw [if_neg hinfr] at hj ⊢
      apply ih (i + 1) (loopStep st r) (by simp [loopStep, h1])
        (by simp [loopStep, h2]) ?_ j r₀ hj hinf
      intro j₂ r₂ hj₂
      have hj₂' : (st.results ++ [r])[j₂]? = some r₂ := hj₂
      rcases Nat.lt_or_ge j₂ i with hlt | hge
      · rw [List.getElem?_append_left (by omega)] at hj₂'
        exact hold j₂ r₂ hj₂'
      · rcases Nat.eq_or_lt_of_le hge with heq | hgt
        · subst heq
          rw [← h2] at hj₂'
          rw [List.getElem?_concat_length] at hj₂'
          have : r = r₂ := Option.some.inj hj₂'
          subst this
          exact hinfr
        · rw [List.getElem?_eq_none
            (by simp only [List.length_append, List.length_cons,
              List.length_nil]; omega)] at hj₂'
          exact absurd hj₂' (by simp)

theorem runSendLoop_provenance (oracle : Nat → Nat → AttemptOutcome) :
    ∀ (l : List Attrs) (i : Nat) (st : LoopSt), st.results.length = i →
      ∀ j, i ≤ j → ∀ r, (runSendLoop oracle l i st).results[j]? = some r →
        ∃ rec, l[j - i]? = some rec ∧
          sendToRecipientWithRetry (oracle j) rec = some r := by
  intro l
  induction l with
  | nil =>
    intro i st h2 j hij r hj
    rw [runSendLoop_nil] at hj
    rw [List.getElem?_eq_none (by omega)] at hj
    exact absurd hj (by simp)
  | cons rec rest ih =>
    intro i st h2 j hij r₀ hj
    obtain ⟨r, hr, -⟩ := sendToRecipientWithRetry_spec (oracle i) rec
    rw [runSendLoop_cons oracle rec rest i st r hr] at hj
    by_cases hinf : infraError r
    · rw [if_pos hinf] at hj
      have hj' : (st.results ++ [r])[j]? = some r₀ := hj
      rcases Nat.eq_or_lt_of_le hij with heq | hgt
      · subst heq
        rw [← h2, List.getElem?_concat_length] at hj'
        have : r = r₀ := Option.some.inj hj'
        subst this
        refine ⟨rec, ?_, hr⟩
        simp
      · rw [List.getElem?_eq_none
          (by simp only [List.length_append, List.length_cons,
            List.length_nil]; omega)] at hj'
        exact absurd hj' (by simp)
    · rw [if_neg hinf] at hj
      rcases Nat.eq_or_lt_of_le hij with heq | hgt
      · subst heq
        obtain ⟨tail, htail⟩ := runSendLoop_extend oracle rest (i + 1) (loopStep st r)
        rw [htail] at hj
        have hj' : ((st.results ++ [r]) ++ tail)[i]? = some r₀ := hj
        rw [List.getElem?_append_left
          (by simp only [List.length_append, List.length_cons,
            List.length_nil]; omega)] at hj'
        rw [← h2, List.getElem?_concat_length] at hj'
        have : r = r₀ := Option.some.inj hj'
        subst this
        refine ⟨rec, ?_, hr⟩
        simp
      · obtain ⟨rec₂, hrec₂, hsend₂⟩ :=
          ih (i + 1) (loopStep st r) (by simp [loopStep, h2]) j hgt r₀ hj
        refine ⟨rec₂, ?_, hsend₂⟩
        have hsub : j - i = (j - (i + 1)) + 1 := by omega
        rw [hsub]
        simpa using hrec₂

theorem finalRows_length (recipients : List Attrs) (results : List SendRes) :
    (finalRows recipients results).length = recipients.length := by
  simp [finalRows]

theorem finalRows_get (recipients : List Attrs) (results : List SendRes)
    (j : Nat) (rec : Attrs) (hj : recipients[j]? = some rec) :
    (finalRows recipients results)[j]? =
      some (match results[j]? with
            | some r => updatedRow j rec r
            | none => pendingRow j rec) := by
  unfold finalRows
  rw [List.getElem?_map, List.getElem?_enum, hj]
  rfl

/-- The loop state the send loop of `/api/send-emails` ends in, entered with
the fresh state (`results = []`, zero counters, `stoppedAt = null`). -/
def sendLoopFinal (sOracle : Nat → Nat → AttemptOutcome)
    (recipients : List Attrs) : LoopSt :=
  runSendLoop sOracle recipients 0 ⟨[], 0, 0, none⟩

theorem sendEmailsHandler_verify_failed (vO : Nat → AttemptOutcome)
    (sO : Nat → Nat → AttemptOutcome) (recipients : List Attrs)
    (subject htmlBody : Str) (e : ErrObj) (hr : recipients ≠ [])
    (hs : subject ≠ []) (hb : htmlBody ≠ [])
    (hv : verifySmtpWithRetry vO 1 MAX_RETRIES = some (some e)) :
    sendEmailsHandler vO sO recipients subject htmlBody =
      { response := .serverError (str "SMTP connection failed") e.message e.code,
        batch := some
          { total := recipients.length, sent := 0, failed := 0, processed := 0,
            status := str "stopped", stoppedAt := none,
            error := some (str "SMTP verify failed: " ++ errText e) },
        rows := finalRows recipients [] } := by
  unfold sendEmailsHandler
  rw [if_neg hr, if_neg (not_or.mpr ⟨hs, hb⟩), hv]

theorem sendEmailsHandler_run (vO : Nat → AttemptOutcome)
    (sO : Nat → Nat → AttemptOutcome) (recipients : List Attrs)
    (subject htmlBody : Str) (hr : recipients ≠ [])
    (hs : subject ≠ []) (hb : htmlBody ≠ [])
    (hv : verifySmtpWithRetry vO 1 MAX_RETRIES = some none) :
    sendEmailsHandler vO sO recipients subject htmlBody =
      { response :=
          .okJson (sendLoopFinal sO recipients).sentCount
            (sendLoopFinal sO recipients).failedCount
            recipients.length
            (sendLoopFinal sO recipients).results.length
            (sendLoopFinal sO recipients).stoppedAt
            (sendLoopFinal sO recipients).results,
        batch := some
          { total := recipients.length,
            sent := (sendLoopFinal sO recipients).sentCount,
            failed := (sendLoopFinal sO recipients).failedCount,
            processed := (sendLoopFinal sO recipients).results.length,
            status :=
              if (sendLoopFinal sO recipients).results.length
                    = recipients.length ∧
                  jsTruthy (sendLoopFinal sO recipients).stoppedAt = false then
                str "completed"
              else str "stopped",
            stoppedAt := (sendLoopFinal sO recipients).stoppedAt,
            error := none },
        rows := finalRows recipients (sendLoopFinal sO recipients).results } := by
  unfold sendEmailsHandler sendLoopFinal
  rw [if_neg hr, if_neg (not_or.mpr ⟨hs, hb⟩), hv]

/-- Oracle under which every transport attempt succeeds. -/
def oracleAllOk : Nat → AttemptOutcome := fun _ => .ok

/-- Per-recipient oracle under which every sendMail attempt succeeds. -/
def sendOracleAllOk : Nat → Nat → AttemptOutcome := fun _ _ => .ok

/-- Per-recipient oracle under which every sendMail attempt raises
ECONNRESET. -/
def sendOracleEconn : Nat → Nat → AttemptOutcome := fun _ _ =>
  .fail errEconnreset

/-- A single recipient row carrying only an Email column. -/
def recA : Attrs := [(str "Email", some (str "a@x.com"))]

/-- C1: evaluation of the failing input.  One recipient whose every send
attempt raises ECONNRESET: the circuit breaker stops at index 0
(`stoppedAt = 0`, `failed = 1`), yet the code finalizes the batch as
completed, because `!stoppedAt` treats the stop index 0 as falsy.  The claim
(and spec) require status stopped whenever a stop occurred, including at
index 0. -/
theorem C1_stop_index_zero_bug_eval :
    (sendEmailsHandler oracleAllOk sendOracleEconn [recA]
        (str "s") (str "b")).batch =
      some { total := 1, sent := 0, failed := 1, processed := 1,
             status := str "completed", stoppedAt := some 0, error := none } := by
  decide

/-- C3: for every batch whose connectivity verification succeeded (so the
send loop ran), the finalized aggregates satisfy
`processed = sent + failed` and `processed ≤ total`, with `total` the number
of submitted recipients. -/
theorem C3_counts_invariant (vO : Nat → AttemptOutcome)
    (sO : Nat → Nat → AttemptOutcome) (recipients : List Attrs)
    (subject htmlBody : Str) (h₁ : recipients ≠ []) (h₂ : subject ≠ [])
    (h₃ : htmlBody ≠ [])
    (hv : verifySmtpWithRetry vO 1 MAX_RETRIES = some none) :
    ∃ b : BatchRow,
      (sendEmailsHandler vO sO recipients subject htmlBody).batch = some b ∧
      b.processed = b.sent + b.failed ∧ b.processed ≤ b.total ∧
      b.total = recipients.length := by
  rw [sendEmailsHandler_run vO sO recipients subject htmlBody h₁ h₂ h₃ hv]
  refine ⟨_, rfl, ?_, ?_, rfl⟩
  · exact (runSendLoop_counts sO recipients 0 ⟨[], 0, 0, none⟩ rfl).symm
  · simpa using runSendLoop_len_le sO recipients 0 ⟨[], 0, 0, none⟩

theorem C3_counts_witness :
    ∃ b : BatchRow,
      (sendEmailsHandler oracleAllOk sendOracleAllOk [recA]
          (str "s") (str "b")).batch = some b ∧
      b.processed = b.sent + b.failed ∧ b.processed ≤ b.total ∧
      b.total = [recA].length :=
  C3_counts_invariant oracleAllOk sendOracleAllOk [recA] (str "s") (str "b")
    (by decide) (by decide) (by decide) (by decide)

theorem verifySmtpWithRetry_ok (vO : Nat → AttemptOutcome) (a f : Nat)
    (h : vO a = .ok) :
    verifySmtpWithRetry vO a (f + 1) = some none := by
  simp only [verifySmtpWithRetry]
  rw [h]

theorem verifySmtpWithRetry_fail (vO : Nat → AttemptOutcome) (a f : Nat)
    (e : ErrObj) (h : vO a = .fail e) :
    verifySmtpWithRetry vO a (f + 1) =
      if (isTemporaryAuthError (some e) || isNetworkError (some e)) = true ∧
          a < MAX_RETRIES then
        verifySmtpWithRetry vO (a + 1) f
      else some (some e) := by
  simp only [verifySmtpWithRetry]
  rw [h]

theorem classify_OTHER_iff (e : ErrObj) :
    classify e = .OTHER ↔
      isTemporaryAuthError (some e) = false ∧
        isNetworkError (some e) = false := by
  unfold classify
  by_cases h₁ : isTemporaryAuthError (some e) = true
  · simp [h₁]
  · by_cases h₂ : isNetworkError (some e) = true
    · simp [h₁, h₂]
    · simp [h₁, h₂]

/-- C6: if connectivity verification raises — which happens when all three
attempts fail, and immediately when the first failure has a non-retryable
class — the batch is finalized stopped with zero sent/failed/processed, the
fatal detail is recorded on the batch row, every recipient row stays
pending, and the caller receives the 500 response carrying the failure
detail. -/
theorem C6_verify_failure (vO : Nat → AttemptOutcome)
    (sO : Nat → Nat → AttemptOutcome) (recipients : List Attrs)
    (subject htmlBody : Str) (h₁ : recipients ≠ []) (h₂ : subject ≠ [])
    (h₃ : htmlBody ≠ []) :
    (∀ e₁ e₂ e₃ : ErrObj, vO 1 = .fail e₁ → vO 2 = .fail e₂ →
      vO 3 = .fail e₃ →
      ∃ e, verifySmtpWithRetry vO 1 MAX_RETRIES = some (some e)) ∧
    (∀ e₁ : ErrObj, vO 1 = .fail e₁ → classify e₁ = .OTHER →
      verifySmtpWithRetry vO 1 MAX_RETRIES = some (some e₁)) ∧
    (∀ e : ErrObj, verifySmtpWithRetry vO 1 MAX_RETRIES = some (some e) →
      sendEmailsHandler vO sO recipients subject htmlBody =
        { response :=
            .serverError (str "SMTP connection failed") e.message e.code,
          batch := some
            { total := recipients.length, sent := 0, failed := 0,
              processed := 0, status := str "stopped", stoppedAt := none,
              error := some (str "SMTP verify failed: " ++ errText e) },
          rows := finalRows recipients [] } ∧
      (∀ (j : Nat) (rec : Attrs), recipients[j]? = some rec →
        (finalRows recipients [])[j]? = some (pendingRow j rec))) := by
  refine ⟨?_, ?_, ?_⟩
  · intro e₁ e₂ e₃ hv1 hv2 hv3
    rw [show MAX_RETRIES = 2 + 1 from rfl,
      verifySmtpWithRetry_fail vO 1 2 e₁ hv1]
    by_cases c₁ :
        (isTemporaryAuthError (some e₁) || isNetworkError (some e₁)) = true ∧
          1 < MAX_RETRIES
    · rw [if_pos c₁, show (2 : Nat) = 1 + 1 from rfl,
        verifySmtpWithRetry_fail vO 2 1 e₂ hv2]
      by_cases c₂ :
          (isTemporaryAuthError (some e₂) || isNetworkError (some e₂)) = true ∧
            2 < MAX_RETRIES
      · rw [if_pos c₂, show (1 : Nat) = 0 + 1 from rfl,
          verifySmtpWithRetry_fail vO 3 0 e₃ hv3]
        rw [if_neg (fun hc => absurd hc.2 (by decide))]
        exact ⟨e₃, rfl⟩
      · rw [if_neg c₂]
        exact ⟨e₂, rfl⟩
    · rw [if_neg c₁]
      exact ⟨e₁, rfl⟩
  · intro e₁ hv1 hother
    obtain ⟨hta, hnet⟩ := (classify_OTHER_iff e₁).mp hother
    rw [show MAX_RETRIES = 2 + 1 from rfl,
      verifySmtpWithRetry_fail vO 1 2 e₁ hv1]
    rw [if_neg (fun hc => by rw [hta, hnet] at hc; exact absurd hc.1 (by decide))]
  · intro e hv
    refine ⟨sendEmailsHandler_verify_failed vO sO recipients subject htmlBody
      e h₁ h₂ h₃ hv, ?_⟩
    intro j rec hrec
    rw [finalRows_get recipients [] j rec hrec]
    rfl

/-- Verify oracle under which every attempt raises ECONNRESET (a retryable
class, so all three attempts are consumed). -/
def verifyOracleEconn : Nat → AttemptOutcome := fun _ => .fail errEconnreset

/-- Verify oracle under which every attempt raises a permanent (OTHER-class)
error. -/
def verifyOracleOther : Nat → AttemptOutcome := fun _ => .fail errOther

theorem C6_verify_failure_witness :
    (∃ e, verifySmtpWithRetry verifyOracleEconn 1 MAX_RETRIES =
      some (some e)) ∧
    verifySmtpWithRetry verifyOracleOther 1 MAX_RETRIES =
      some (some errOther) ∧
    (sendEmailsHandler verifyOracleEconn sendOracleAllOk [recA]
        (str "s") (str "b")).batch =
      some { total := 1, sent := 0, failed := 0, processed := 0,
             status := str "stopped", stoppedAt := none,
             error := some (str "SMTP verify failed: " ++
               errText errEconnreset) } :=
  ⟨(C6_verify_failure verifyOracleEconn sendOracleAllOk [recA]
      (str "s") (str "b") (by decide) (by decide) (by decide)).1
      errEconnreset errEconnreset errEconnreset rfl rfl rfl,
   (C6_verify_failure verifyOracleOther sendOracleAllOk [recA]
      (str "s") (str "b") (by decide) (by decide) (by decide)).2.1
      errOther rfl (by decide),
   by
     rw [((C6_verify_failure verifyOracleEconn sendOracleAllOk [recA]
       (str "s") (str "b") (by decide) (by decide) (by decide)).2.2
       errEconnreset (by decide)).1]
     rfl⟩

/-- C2: for every finalized batch with stop index k (connectivity verified,
so the loop ran): the k-th result is an error of class NETWORK or TEMP_AUTH
and its ledger row reads error; every recipient with index above k still has
its untouched pending row; and an OTHER-class failure never sets the stop
index — the loop goes on to the next index. -/
theorem C2_circuit_breaker (vO : Nat → AttemptOutcome)
    (sO : Nat → Nat → AttemptOutcome) (recipients : List Attrs)
    (subject htmlBody : Str) (h₁ : recipients ≠ []) (h₂ : subject ≠ [])
    (h₃ : htmlBody ≠ [])
    (hv : verifySmtpWithRetry vO 1 MAX_RETRIES = some none) :
    ∀ b : BatchRow,
      (sendEmailsHandler vO sO recipients subject htmlBody).batch = some b →
      (∀ k, b.stoppedAt = some k →
        b.processed = k + 1 ∧
        (∃ rec r, recipients[k]? = some rec ∧
          (sendLoopFinal sO recipients).results[k]? = some r ∧
          r.status = str "error" ∧
          (r.reason = some .NETWORK ∨ r.reason = some .TEMP_AUTH) ∧
          (sendEmailsHandler vO sO recipients subject htmlBody).rows[k]? =
            some (updatedRow k rec r) ∧
          (updatedRow k rec r).status = str "error") ∧
        (∀ j, k < j → j < recipients.length →
          ∃ rec, recipients[j]? = some rec ∧
            (sendEmailsHandler vO sO recipients subject htmlBody).rows[j]? =
              some (pendingRow j rec))) ∧
      (∀ (j : Nat) (r : SendRes),
        (sendLoopFinal sO recipients).results[j]? = some r →
        r.status = str "error" → r.reason = some .OTHER →
        b.stoppedAt ≠ some j ∧
        (j + 1 < recipients.length → j + 1 < b.processed)) := by
  intro b hbatch
  rw [sendEmailsHandler_run vO sO recipients subject htmlBody h₁ h₂ h₃ hv]
    at hbatch ⊢
  obtain rfl : _ = b := Option.some.inj hbatch
  dsimp only
  have hFr : runSendLoop sO recipients 0 ⟨[], 0, 0, none⟩ =
      sendLoopFinal sO recipients := rfl
  have hstop := runSendLoop_stop sO recipients 0 ⟨[], 0, 0, none⟩ rfl rfl
  have hnostop := runSendLoop_no_stop sO recipients 0 ⟨[], 0, 0, none⟩ rfl
  have hlenle := runSendLoop_len_le sO recipients 0 ⟨[], 0, 0, none⟩
  rw [hFr] at hstop hnostop hlenle
  have hinit : (⟨[], 0, 0, none⟩ : LoopSt).results.length = 0 := rfl
  rw [hinit] at hnostop hlenle
  refine ⟨?_, ?_⟩
  · intro k hk
    obtain ⟨-, hlen, r, hrk, hinfr⟩ := hstop k hk
    have hktot : k < recipients.length := by omega
    have hrec : recipients[k]? = some recipients[k] :=
      List.getElem?_eq_getElem hktot
    refine ⟨hlen, ⟨recipients[k], r, hrec, hrk, hinfr.1, hinfr.2, ?_, ?_⟩, ?_⟩
    · rw [finalRows_get recipients _ k recipients[k] hrec, hrk]
    · show (if r.status = str "sent" then str "sent" else str "error") =
        str "error"
      rw [if_neg (by rw [hinfr.1]; decide)]
    · intro j hkj hjtot
      have hrecj : recipients[j]? = some recipients[j] :=
        List.getElem?_eq_getElem hjtot
      refine ⟨recipients[j], hrecj, ?_⟩
      rw [finalRows_get recipients _ j recipients[j] hrecj,
        List.getElem?_eq_none (by omega)]
  · intro j r hjr hst hreason
    have hninf : ¬ infraError r := by
      rintro ⟨-, hor | hor⟩ <;> rw [hreason] at hor <;>
        exact absurd (Option.some.inj hor) (by decide)
    have hjlt : j < (sendLoopFinal sO recipients).results.length := by
      by_contra hle
      push_neg at hle
      rw [List.getElem?_eq_none hle] at hjr
      exact absurd hjr (by simp)
    cases hF : (sendLoopFinal sO recipients).stoppedAt with
    | none =>
      refine ⟨by simp, ?_⟩
      intro hjtot
      have hlen := hnostop hF
      omega
    | some k =>
      obtain ⟨-, hlen, r', hr'k, hinf'⟩ := hstop k hF
      have hjk : j ≠ k := by
        intro he
        subst he
        rw [hjr] at hr'k
        have hrr : r = r' := Option.some.inj hr'k
        rw [← hrr] at hinf'
        exact hninf hinf'
      refine ⟨?_, ?_⟩
      · intro hc
        exact hjk (Option.some.inj hc).symm
      · intro hjtot
        omega

/-- Recipient rows for the spec's three-recipient scenario. -/
def recB : Attrs := [(str "Email", some (str "b@x.com"))]

/-- Third recipient of the three-recipient scenario. -/
def recC : Attrs := [(str "Email", some (str "c@x.com"))]

/-- Send oracle raising ECONNRESET for the recipient at index 1 and
succeeding elsewhere. -/
def sendOracleFailSecond : Nat → Nat → AttemptOutcome := fun i _ =>
  if i = 1 then .fail errEconnreset else .ok

theorem C2_circuit_breaker_witness :
    ∃ rec r, [recA, recB, recC][1]? = some rec ∧
      (sendLoopFinal sendOracleFailSecond [recA, recB, recC]).results[1]? =
        some r ∧
      r.status = str "error" ∧
      (r.reason = some .NETWORK ∨ r.reason = some .TEMP_AUTH) ∧
      (sendEmailsHandler oracleAllOk sendOracleFailSecond [recA, recB, recC]
          (str "s") (str "b")).rows[1]? = some (updatedRow 1 rec r) ∧
      (updatedRow 1 rec r).status = str "error" :=
  ((C2_circuit_breaker oracleAllOk sendOracleFailSecond [recA, recB, recC]
      (str "s") (str "b") (by decide) (by decide) (by decide) (by decide)
      { total := 3, sent := 1, failed := 1, processed := 2,
        status := str "stopped", stoppedAt := some 1, error := none }
      (by decide)).1 1 rfl).2.1

theorem updatedRow_email (i : Nat) (rec : Attrs) (r : SendRes) :
    (updatedRow i rec r).email = getField rec (str "Email") [] := rfl

theorem updatedRow_attempt (i : Nat) (rec : Attrs) (r : SendRes) :
    (updatedRow i rec r).attempt = r.attempt := rfl

theorem updatedRow_error (i : Nat) (rec : Attrs) (r : SendRes) :
    (updatedRow i rec r).error = r.error := rfl

theorem updatedRow_status (i : Nat) (rec : Attrs) (r : SendRes) :
    (updatedRow i rec r).status =
      if r.status = str "sent" then str "sent" else str "error" := rfl

theorem pendingRow_status (i : Nat) (rec : Attrs) :
    (pendingRow i rec).status = str "pending" := rfl

/-- C4 counterexample: a recipient whose attribute map yields no email gets
a terminal ledger row (status error) with attempt count 0, violating
`1 ≤ attempt` for terminal rows. -/
theorem C4_attempt_bounds_counterexample :
    (sendEmailsHandler oracleAllOk sendOracleAllOk [[]]
        (str "s") (str "b")).rows[0]? =
      some { idx := 0, email := [], name := [], status := str "error",
             attempt := 0, error := some missingEmailMsg } ∧
    ¬ (1 ≤ (0 : Nat)) := by
  decide

/-- C4 (amended): every ledger row with a terminal status has
`attempt ≤ 3`, and `attempt ≥ 1` unless the recipient's email is missing; a
missing-email recipient's terminal row has status error, attempt 0 and the
missing-email message. -/
theorem C4_attempt_bounds_amended (vO : Nat → AttemptOutcome)
    (sO : Nat → Nat → AttemptOutcome) (recipients : List Attrs)
    (subject htmlBody : Str) (h₁ : recipients ≠ []) (h₂ : subject ≠ [])
    (h₃ : htmlBody ≠ [])
    (hv : verifySmtpWithRetry vO 1 MAX_RETRIES = some none) :
    ∀ (j : Nat) (row : RecRow),
      (sendEmailsHandler vO sO recipients subject htmlBody).rows[j]? =
        some row →
      row.status = str "sent" ∨ row.status = str "error" →
      row.attempt ≤ MAX_RETRIES ∧
      (row.email ≠ [] → 1 ≤ row.attempt) ∧
      (row.email = [] → row.status = str "error" ∧ row.attempt = 0 ∧
        row.error = some missingEmailMsg) := by
  intro j row hrow hterm
  rw [sendEmailsHandler_run vO sO recipients subject htmlBody h₁ h₂ h₃ hv]
    at hrow
  dsimp only at hrow
  have hjtot : j < recipients.length := by
    by_contra hle
    push_neg at hle
    rw [List.getElem?_eq_none (by rw [finalRows_length]; omega)] at hrow
    exact absurd hrow (by simp)
  have hrec : recipients[j]? = some recipients[j] :=
    List.getElem?_eq_getElem hjtot
  rw [finalRows_get recipients _ j recipients[j] hrec] at hrow
  have hrow₂ := Option.some.inj hrow
  cases hres : (sendLoopFinal sO recipients).results[j]? with
  | none =>
    rw [hres] at hrow₂
    rw [← hrow₂] at hterm
    have hpend : (pendingRow j recipients[j]).status = str "pending" := rfl
    rw [hpend] at hterm
    rcases hterm with hc | hc <;> exact absurd hc (by decide)
  | some r =>
    rw [hres] at hrow₂
    rw [← hrow₂]
    obtain ⟨rec₂, hrec₂, hsend⟩ :=
      runSendLoop_provenance sO recipients 0 ⟨[], 0, 0, none⟩ rfl j
        (Nat.zero_le j) r hres
    rw [Nat.sub_zero] at hrec₂
    have hrec₂' : rec₂ = recipients[j] := by
      rw [hrec] at hrec₂
      exact (Option.some.inj hrec₂).symm
    subst hrec₂'
    obtain ⟨r₀, hr₀, hatt, hstat, hmiss, hnonmiss⟩ :=
      sendToRecipientWithRetry_spec (sO j) recipients[j]
    have hrr : r₀ = r := by
      rw [hsend] at hr₀
      exact (Option.some.inj hr₀).symm
    subst hrr
    refine ⟨?_, ?_, ?_⟩
    · rw [updatedRow_attempt]
      exact hatt
    · intro hne
      rw [updatedRow_email] at hne
      rw [updatedRow_attempt]
      exact (hnonmiss hne).1
    · intro he
      rw [updatedRow_email] at he
      have hr₂ := hmiss he
      refine ⟨?_, ?_, ?_⟩
      · rw [updatedRow_status, hr₂]
        decide
      · rw [updatedRow_attempt, hr₂]
      · rw [updatedRow_error, hr₂]

theorem C4_attempt_bounds_witness :
    ({ idx := 0, email := str "a@x.com", name := [], status := str "sent",
       attempt := 1, error := none } : RecRow).attempt ≤ MAX_RETRIES ∧
    (({ idx := 0, email := str "a@x.com", name := [], status := str "sent",
        attempt := 1, error := none } : RecRow).email ≠ [] →
      1 ≤ ({ idx := 0, email := str "a@x.com", name := [],
             status := str "sent", attempt := 1,
             error := none } : RecRow).attempt) ∧
    (({ idx := 0, email := str "a@x.com", name := [], status := str "sent",
        attempt := 1, error := none } : RecRow).email = [] →
      ({ idx := 0, email := str "a@x.com", name := [], status := str "sent",
         attempt := 1, error := none } : RecRow).status = str "error" ∧
      ({ idx := 0, email := str "a@x.com", name := [], status := str "sent",
         attempt := 1, error := none } : RecRow).attempt = 0 ∧
      ({ idx := 0, email := str "a@x.com", name := [], status := str "sent",
         attempt := 1, error := none } : RecRow).error =
        some missingEmailMsg) :=
  C4_attempt_bounds_amended oracleAllOk sendOracleAllOk [recA]
    (str "s") (str "b") (by decide) (by decide) (by decide) (by decide) 0
    { idx := 0, email := str "a@x.com", name := [], status := str "sent",
      attempt := 1, error := none }
    (by decide) (Or.inl rfl)

/-- C10: a processed recipient whose attribute map yields no email address
(no case-insensitive Email key, or a null or empty value — exactly when
`getField(rec, "Email", "")` is empty) gets the attempt-0 OTHER error
result without any transport call (the result is the same under every
oracle), its ledger row reads error / attempt 0 / the missing-email message,
and — the class being OTHER — the loop does not stop there and the next
recipient, when one exists, is processed. -/
theorem C10_missing_email (vO : Nat → AttemptOutcome)
    (sO : Nat → Nat → AttemptOutcome) (recipients : List Attrs)
    (subject htmlBody : Str) (h₁ : recipients ≠ []) (h₂ : subject ≠ [])
    (h₃ : htmlBody ≠ [])
    (hv : verifySmtpWithRetry vO 1 MAX_RETRIES = some none) :
    ∀ (j : Nat) (rec : Attrs) (r : SendRes),
      recipients[j]? = some rec →
      getField rec (str "Email") [] = [] →
      (sendLoopFinal sO recipients).results[j]? = some r →
      r = ⟨[], str "error", 0, some missingEmailMsg, some .OTHER⟩ ∧
      (∀ oracle₂ : Nat → AttemptOutcome,
        sendToRecipientWithRetry oracle₂ rec = some r) ∧
      (sendEmailsHandler vO sO recipients subject htmlBody).rows[j]? =
        some (updatedRow j rec r) ∧
      (updatedRow j rec r).status = str "error" ∧
      (updatedRow j rec r).attempt = 0 ∧
      (updatedRow j rec r).error = some missingEmailMsg ∧
      (sendLoopFinal sO recipients).stoppedAt ≠ some j ∧
      (j + 1 < recipients.length →
        j + 1 < (sendLoopFinal sO recipients).results.length) := by
  intro j rec r hrec hmail hres
  have hsr : ∀ oracle₂ : Nat → AttemptOutcome,
      sendToRecipientWithRetry oracle₂ rec =
        some ⟨[], str "error", 0, some missingEmailMsg, some .OTHER⟩ := by
    intro oracle₂
    simp only [sendToRecipientWithRetry]
    rw [if_pos hmail]
  obtain ⟨rec₂, hrec₂, hsend⟩ :=
    runSendLoop_provenance sO recipients 0 ⟨[], 0, 0, none⟩ rfl j
      (Nat.zero_le j) r hres
  rw [Nat.sub_zero] at hrec₂
  have hrec₂' : rec₂ = rec := by
    rw [hrec] at hrec₂
    exact (Option.some.inj hrec₂).symm
  subst hrec₂'
  have hr : r = ⟨[], str "error", 0, some missingEmailMsg, some .OTHER⟩ := by
    have h := hsr (sO j)
    rw [hsend] at h
    exact Option.some.inj h
  have hstop := runSendLoop_stop sO recipients 0 ⟨[], 0, 0, none⟩ rfl rfl
  have hnostop := runSendLoop_no_stop sO recipients 0 ⟨[], 0, 0, none⟩ rfl
  have hFr : runSendLoop sO recipients 0 ⟨[], 0, 0, none⟩ =
      sendLoopFinal sO recipients := rfl
  rw [hFr] at hstop hnostop
  have hinit : (⟨[], 0, 0, none⟩ : LoopSt).results.length = 0 := rfl
  rw [hinit] at hnostop
  have hninf : ¬ infraError r := by
    rw [hr]
    decide
  have hnstopj : (sendLoopFinal sO recipients).stoppedAt ≠ some j := by
    intro hstopj
    obtain ⟨-, hlen, r', hr', hinf'⟩ := hstop j hstopj
    rw [hres] at hr'
    have hrr : r = r' := Option.some.inj hr'
    rw [← hrr] at hinf'
    exact hninf hinf'
  have hjlt : j < (sendLoopFinal sO recipients).results.length := by
    by_contra hle
    push_neg at hle
    rw [List.getElem?_eq_none hle] at hres
    exact absurd hres (by simp)
  refine ⟨hr, by rw [hr]; exact hsr, ?_, ?_, ?_, ?_, hnstopj, ?_⟩
  · rw [sendEmailsHandler_run vO sO recipients subject htmlBody h₁ h₂ h₃ hv]
    dsimp only
    rw [finalRows_get recipients _ j rec₂ hrec, hres]
  · rw [updatedRow_status, hr]
    decide
  · rw [updatedRow_attempt, hr]
  · rw [updatedRow_error, hr]
  · intro hjtot
    cases hF : (sendLoopFinal sO recipients).stoppedAt with
    | none =>
      have hlen := hnostop hF
      omega
    | some k =>
      obtain ⟨-, hlen, r', hr'k, hinf'⟩ := hstop k hF
      have hjk : j ≠ k := fun he => hnstopj (he ▸ hF)
      omega

theorem C10_missing_email_witness :
    (sendEmailsHandler oracleAllOk sendOracleAllOk [[], recA]
        (str "s") (str "b")).rows[0]? =
      some (updatedRow 0 []
        ⟨[], str "error", 0, some missingEmailMsg, some .OTHER⟩) ∧
    (sendLoopFinal sendOracleAllOk [[], recA]).stoppedAt ≠ some 0 ∧
    (0 + 1 < ([[], recA] : List Attrs).length →
      0 + 1 < (sendLoopFinal sendOracleAllOk [[], recA]).results.length) :=
  ⟨(C10_missing_email oracleAllOk sendOracleAllOk [[], recA]
      (str "s") (str "b") (by decide) (by decide) (by decide) (by decide) 0 []
      ⟨[], str "error", 0, some missingEmailMsg, some .OTHER⟩
      rfl rfl (by decide)).2.2.1,
   (C10_missing_email oracleAllOk sendOracleAllOk [[], recA]
      (str "s") (str "b") (by decide) (by decide) (by decide) (by decide) 0 []
      ⟨[], str "error", 0, some missingEmailMsg, some .OTHER⟩
      rfl rfl (by decide)).2.2.2.2.2.2.1,
   (C10_missing_email oracleAllOk sendOracleAllOk [[], recA]
      (str "s") (str "b") (by decide) (by decide) (by decide) (by decide) 0 []
      ⟨[], str "error", 0, some missingEmailMsg, some .OTHER⟩
      rfl rfl (by decide)).2.2.2.2.2.2.2⟩

/-- The character class `[a-z0-9@._-]` of the sanitizing regex in
`/api/email-pdfs`, applied with the case-insensitive flag: letters of either
case, digits, and the four symbols at, dot, underscore, hyphen. -/
def allowedChar (c : Char) : Prop :=
  ('a' ≤ c ∧ c ≤ 'z') ∨ ('A' ≤ c ∧ c ≤ 'Z') ∨ ('0' ≤ c ∧ c ≤ '9') ∨
    c = '@' ∨ c = '.' ∨ c = '_' ∨ c = '-'

instance (c : Char) : Decidable (allowedChar c) := by
  unfold allowedChar
  infer_instance

/-- Embeds `String(email).replace(/[^a-z0-9@._-]/gi, "_")`: the regex
matches one character at a time, so every character outside the class is
replaced by an underscore. -/
def sanitizeEmail (s : Str) : Str :=
  s.map fun c => if allowedChar c then c else '_'

/-- Embeds the entry-name computation of `/api/email-pdfs` (safeEmail and
filename): the recipient's Email field read case-insensitively with default
"unknown" (when the key is absent or its value null), sanitized, with the
empty string falling back to "recipient", and ".pdf" appended. -/
def pdfFilename (rec : Attrs) : Str :=
  let email := getField rec (str "Email") (str "unknown")
  let safeEmail := sanitizeEmail email
  (if safeEmail = [] then str "recipient" else safeEmail) ++ str ".pdf"

/-- The ZIP entry names produced by a successful `/api/email-pdfs` request:
the pdfFiles array is filled in recipient order and `archive.append` runs
once per element, so entry j carries recipient j's filename. -/
def emailPdfsEntryNames (recipients : List Attrs) : List Str :=
  recipients.map pdfFilename

/-- The recipient's address as the dispatch path itself reads it
(`getField(recipient, "Email", "")`): the empty string when the map has no
usable Email field. -/
def recipientAddress (rec : Attrs) : Str := getField rec (str "Email") []

/-- Follows the spec's words, for comparison with the code's `pdfFilename`:
the entry name is the recipient's address with every character outside the
class replaced by an underscore, falling back to "recipient" when the
address is empty, with ".pdf" appended. -/
def specEntryName (address : Str) : Str :=
  (if sanitizeEmail address = [] then str "recipient"
   else sanitizeEmail address) ++ str ".pdf"

theorem sanitizeEmail_allowed (s : Str) :
    ∀ c ∈ sanitizeEmail s, allowedChar c := by
  intro c hc
  obtain ⟨x, -, rfl⟩ := List.mem_map.mp hc
  by_cases h : allowedChar x
  · rw [if_pos h]
    exact h
  · rw [if_neg h]
    decide

/-- C9 counterexample: for a recipient map with no Email field the address
is empty, so the claim's rule names the entry "recipient.pdf" — but the code
substitutes the default "unknown" before sanitizing and produces
"unknown.pdf". -/
theorem C9_entry_names_counterexample :
    emailPdfsEntryNames [[]] = [str "unknown.pdf"] ∧
    recipientAddress [] = [] ∧
    specEntryName (recipientAddress []) = str "recipient.pdf" ∧
    str "unknown.pdf" ≠ str "recipient.pdf" := by
  decide

/-- C9 (amended): the archive holds one entry per recipient in input order;
every entry-name character lies in the allowed class; the names follow the
spec's rule applied to the Email field with default "unknown" when the field
is absent or null; and a nonempty address is sanitized with no fallback. -/
theorem C9_entry_names_amended :
    (∀ recipients : List Attrs,
      (emailPdfsEntryNames recipients).length = recipients.length) ∧
    (∀ recipients : List Attrs, ∀ name ∈ emailPdfsEntryNames recipients,
      ∀ c ∈ name, allowedChar c) ∧
    (∀ recipients : List Attrs,
      emailPdfsEntryNames recipients =
        recipients.map fun rec =>
          specEntryName (getField rec (str "Email") (str "unknown"))) ∧
    (∀ (rec : Attrs) (s : Str),
      getField rec (str "Email") (str "unknown") = s → s ≠ [] →
      pdfFilename rec = sanitizeEmail s ++ str ".pdf") := by
  refine ⟨?_, ?_, ?_, ?_⟩
  · intro recipients
    simp [emailPdfsEntryNames]
  · intro recipients name hname c hc
    obtain ⟨rec, -, rfl⟩ := List.mem_map.mp hname
    simp only [pdfFilename] at hc
    rcases List.mem_append.mp hc with h | h
    · by_cases hemp :
          sanitizeEmail (getField rec (str "Email") (str "unknown")) = []
      · rw [if_pos hemp] at h
        have hall : ∀ c₂ ∈ str "recipient", allowedChar c₂ := by decide
        exact hall c h
      · rw [if_neg hemp] at h
        exact sanitizeEmail_allowed _ c h
    · have hall : ∀ c₂ ∈ str ".pdf", allowedChar c₂ := by decide
      exact hall c h
  · intro recipients
    rfl
  · intro rec s hs hne
    simp only [pdfFilename]
    rw [hs]
    have hne₂ : sanitizeEmail s ≠ [] := fun hmap =>
      hne (List.map_eq_nil_iff.mp hmap)
    rw [if_neg hne₂]

theorem C9_entry_names_witness :
    (emailPdfsEntryNames [recA]).length = [recA].length ∧
    pdfFilename [(str "Email", some (str "a!b@x.com"))] =
      sanitizeEmail (str "a!b@x.com") ++ str ".pdf" :=
  ⟨C9_entry_names_amended.1 [recA],
   C9_entry_names_amended.2.2.2 [(str "Email", some (str "a!b@x.com"))]
     (str "a!b@x.com") (by decide) (by decide)⟩
